import Mathlib

/-!
Verification of the vector retrieval core of the rag-chatbot repository.

The development shallowly embeds two source files:

* `src/utils.py` — the `chunk_text` function (text chunking with overlap and
  sentence-boundary cuts);
* `src/vector_store.py` — the `VectorStore` class (FAISS-backed exact
  inner-product search with parallel text/metadata arrays and eager
  snapshot persistence).

Modelling conventions:

* Python strings are Lean `String` / `List Char`; `len` is `List.length`;
  slicing `text[a:b]` is `(t.drop a).take (b - a)`.
* Python ints are `Nat` (all quantities involved are non-negative; Python's
  `max(end - overlap, start + 1)` on possibly-negative `end - overlap` agrees
  with `Nat.max` on truncated subtraction because the second argument is
  positive).
* float32 vectors are `List ℚ`.  `faiss.normalize_L2` scales each row by a
  positive factor (`1/‖row‖` for nonzero rows); the factor is irrational in
  general and none of the verified claims depend on score values (only on
  counts, ordering structure, and state shape), so the scaling is modelled
  as the identity, see `normalizeL2`.
* Fallible operations return `Except String _`; a Python exception that
  escapes a method is an `Except.error`.
* The two on-disk artifacts (`vector_index.faiss`, `metadata.pkl`) are a
  `Files` record carried in the store state.  Each artifact is absent,
  valid (parseable), or corrupt — present but unreadable, as left by a
  partial or truncated write (`Artifact`).  `os.path.exists` is matching
  against `absent`.  `_save_index` can fail at three points
  (`faiss.write_index`, `open`, `pickle.dump`), each leaving a different
  on-disk state the source does not constrain, so a failed save carries
  the arbitrary file state it left behind (`SaveOutcome.failed`).
-/

namespace RagCore

/-! ## Chunker: `chunk_text` from `src/utils.py` -/

/-- Length of the maximal leading whitespace run of `l`.  Models the greedy
`\s+` of the patterns in `chunk_text`, which is bounded by the end of the
sliced search window because the regex runs on the slice. -/
def wsRun : List Char → Nat
  | [] => 0
  | c :: cs => if c.isWhitespace then wsRun cs + 1 else 0

/-- End positions (relative to the slice) of all matches of the pattern
"punctuation character `c` followed by `\s+`" in the slice, as produced by
`re.finditer`: a match starts at every occurrence of `c` directly followed
by whitespace (no such occurrence can lie inside an earlier match, whose
interior is whitespace), and its end is the end of the maximal whitespace
run. -/
def punctEnds (c : Char) : List Char → Nat → List Nat
  | a :: b :: rest, p =>
    if a = c ∧ b.isWhitespace then
      (p + 1 + wsRun (b :: rest)) :: punctEnds c (b :: rest) (p + 1)
    else
      punctEnds c (b :: rest) (p + 1)
  | _, _ => []

/-- End positions of the non-overlapping matches of `\n\n` found by
`re.finditer`: after a match ends the scan resumes at its end, so in a run
of newlines matches are taken greedily from the left. -/
def nnEnds : List Char → Nat → List Nat
  | a :: b :: rest, p =>
    if a = '\n' ∧ b = '\n' then
      (p + 2) :: nnEnds rest (p + 2)
    else
      nnEnds (b :: rest) (p + 1)
  | _, _ => []

/-- All sentence-break end positions in a slice: the four patterns
`\.\s+`, `\!\s+`, `\?\s+`, `\n\n` of `chunk_text`, in source order. -/
def sentenceBreaks (slice : List Char) : List Nat :=
  punctEnds '.' slice 0 ++ punctEnds '!' slice 0 ++ punctEnds '?' slice 0 ++
    nnEnds slice 0

/-- The candidate cut points for the window starting at `start`:
`search_start + match.end()` for every sentence-break match in
`text[search_start:end]`, where `end = start + max_chunk_size` and
`search_start = max(end - 200, start)`.  The `200` is hardcoded in the
source (line 36 of `src/utils.py`), independent of the `overlap`
parameter. -/
def sentenceBreaksIn (t : List Char) (start maxSize : Nat) : List Nat :=
  let e := start + maxSize
  let ss := Nat.max (e - 200) start
  (sentenceBreaks ((t.drop ss).take (e - ss))).map (fun x => x + ss)

/-- The cut point chosen for the window starting at `start`: if the raw end
`start + max_chunk_size` still lies inside the text, the furthest
sentence-break end in the search region (if any), else the raw end. -/
def cutEnd (t : List Char) (start maxSize : Nat) : Nat :=
  if start + maxSize < t.length then
    if (sentenceBreaksIn t start maxSize).isEmpty then start + maxSize
    else (sentenceBreaksIn t start maxSize).foldl Nat.max 0
  else start + maxSize

/-- The `while start < len(text)` loop of `chunk_text` with an explicit
iteration budget (first argument): each iteration advances `start` by at
least 1 (`max(end - overlap, start + 1) ≥ start + 1`), so a budget of
`t.length - start` makes the budget never run out before the loop
condition fails; `windows` below hands it exactly that budget.  Returns
the list of raw window spans `(start, end)` in iteration order. -/
def windowsGo (t : List Char) (maxSize overlap : Nat) :
    Nat → Nat → List (Nat × Nat)
  | 0, _ => []
  | fuel + 1, start =>
    if start < t.length then
      (start, cutEnd t start maxSize) ::
        windowsGo t maxSize overlap fuel
          (Nat.max (cutEnd t start maxSize - overlap) (start + 1))
    else []

/-- The `while start < len(text)` loop of `chunk_text`, from initial
offset `start`. -/
def windows (t : List Char) (maxSize overlap : Nat) (start : Nat) :
    List (Nat × Nat) :=
  windowsGo t maxSize overlap (t.length - start) start

/-- Python `str.strip()` on the characters appearing in this development
(ASCII whitespace). -/
def stripChars (l : List Char) : List Char :=
  ((l.dropWhile Char.isWhitespace).reverse.dropWhile Char.isWhitespace).reverse

/-- `chunk_text` from `src/utils.py`: empty input gives `[]`; input no
longer than `max_chunk_size` is returned whole (verbatim, not stripped);
otherwise the loop cuts windows, strips each, and drops empty chunks. -/
def chunkText (s : String) (maxSize overlap : Nat) : List String :=
  if s.data = [] ∨ s.length ≤ maxSize then
    if s.data = [] then [] else [s]
  else
    (windows s.data maxSize overlap 0).filterMap (fun w =>
      let c := stripChars ((s.data.drop w.1).take (w.2 - w.1))
      if c = [] then none else some (String.mk c))

/-- The window spans underlying `chunkText`, including the single whole-text
window of the short-input branch. -/
def chunkSpans (t : List Char) (maxSize overlap : Nat) : List (Nat × Nat) :=
  if t = [] ∨ t.length ≤ maxSize then
    if t = [] then [] else [(0, t.length)]
  else windows t maxSize overlap 0

/-- The window spans whose stripped content is non-empty, i.e. the spans of
the chunks `chunkText` actually returns. -/
def keptSpans (t : List Char) (maxSize overlap : Nat) : List (Nat × Nat) :=
  (windows t maxSize overlap 0).filter
    (fun w => !(stripChars ((t.drop w.1).take (w.2 - w.1))).isEmpty)

/-! ## Claimed chunker variant for claim C8

Claim C8 says the boundary search happens "within the last `overlap`
characters" of the window; the source hardcodes 200 (`max(end - 200,
start)` on line 36 of `src/utils.py`).  The following definitions are
modelled from the claim's words, for refutation by comparison with the
source model. -/

/-- Modelled from the claim's words (claim C8): candidate cut points found
within the last `overlap` characters of the window. -/
def sentenceBreaksInClaimed (t : List Char) (start maxSize overlap : Nat) :
    List Nat :=
  let e := start + maxSize
  let ss := Nat.max (e - overlap) start
  (sentenceBreaks ((t.drop ss).take (e - ss))).map (fun x => x + ss)

/-- Modelled from the claim's words (claim C8): the cut point with an
`overlap`-wide search region. -/
def cutEndClaimed (t : List Char) (start maxSize overlap : Nat) : Nat :=
  if start + maxSize < t.length then
    if (sentenceBreaksInClaimed t start maxSize overlap).isEmpty then
      start + maxSize
    else (sentenceBreaksInClaimed t start maxSize overlap).foldl Nat.max 0
  else start + maxSize

/-- The chunking loop driven by `cutEndClaimed` (claim C8's description of
the windows). -/
def windowsGoClaimed (t : List Char) (maxSize overlap : Nat) :
    Nat → Nat → List (Nat × Nat)
  | 0, _ => []
  | fuel + 1, start =>
    if start < t.length then
      (start, cutEndClaimed t start maxSize overlap) ::
        windowsGoClaimed t maxSize overlap fuel
          (Nat.max (cutEndClaimed t start maxSize overlap - overlap)
            (start + 1))
    else []

/-- The window list as claim C8 describes it. -/
def windowsClaimed (t : List Char) (maxSize overlap : Nat) (start : Nat) :
    List (Nat × Nat) :=
  windowsGoClaimed t maxSize overlap (t.length - start) start

/-! ## VectorStore: `src/vector_store.py` -/

/-- Python metadata dictionaries; the claims never inspect their contents,
only move them around, so string-pair association lists suffice. -/
abbrev Metadata := List (String × String)

/-- A `faiss.IndexFlatIP`: the fixed dimension `d` and the stored vectors
in insertion order. -/
structure IndexFlatIP where
  d : Nat
  vecs : List (List ℚ)
deriving DecidableEq, Repr

/-- One on-disk artifact: absent, present with parseable content, or
present but unreadable — a partial or truncated write (e.g. after
`open(..., 'wb')` truncated the file and `pickle.dump` raised, or after
`faiss.write_index` failed midway). -/
inductive Artifact (α : Type) where
  | absent
  | valid (a : α)
  | corrupt
deriving DecidableEq, Repr

/-- The two on-disk artifacts: `vector_index.faiss` and `metadata.pkl`
(the latter holding `{texts, metadatas, dimension}`). -/
structure Files where
  indexFile : Artifact IndexFlatIP
  metadataFile : Artifact (List String × List Metadata × Nat)
deriving DecidableEq, Repr

/-- A `VectorStore` state: `self.dimension`, `self.index`, `self.texts`,
`self.metadatas`, plus the state of the two files it persists to. -/
structure VectorStore where
  dimension : Nat
  index : Option IndexFlatIP
  texts : List String
  metadatas : List Metadata
  files : Files
deriving DecidableEq, Repr

instance {ε α : Type} [DecidableEq ε] [DecidableEq α] :
    DecidableEq (Except ε α)
  | Except.ok a, Except.ok b =>
    if h : a = b then Decidable.isTrue (by rw [h])
    else Decidable.isFalse (fun hc => h (Except.ok.inj hc))
  | Except.error e, Except.error f =>
    if h : e = f then Decidable.isTrue (by rw [h])
    else Decidable.isFalse (fun hc => h (Except.error.inj hc))
  | Except.ok _, Except.error _ =>
    Decidable.isFalse (fun hc => Except.noConfusion hc)
  | Except.error _, Except.ok _ =>
    Decidable.isFalse (fun hc => Except.noConfusion hc)

/-- A fresh store constructed with no files on disk (the `__init__` +
`_load_index` path with neither artifact present, default dimension
1536). -/
def emptyStore : VectorStore :=
  { dimension := 1536, index := none, texts := [], metadatas := [],
    files := { indexFile := Artifact.absent,
               metadataFile := Artifact.absent } }

/-- `self.index.ntotal if self.index else 0`. -/
def indexSize (st : VectorStore) : Nat :=
  match st.index with
  | none => 0
  | some ix => ix.vecs.length

/-- The stored vectors, `[]` when the index is uninitialized. -/
def indexVecs (st : VectorStore) : List (List ℚ) :=
  match st.index with
  | none => []
  | some ix => ix.vecs

/-- `np.array(embeddings, dtype=np.float32)` followed by `.shape[1]`:
succeeds only on a non-empty rectangular list of rows, returning the row
width and the rows; a ragged list raises (`ValueError`), modelled as
`none`. -/
def toMatrix : List (List ℚ) → Option (Nat × List (List ℚ))
  | [] => none
  | r :: rs =>
    if rs.all (fun v => v.length == r.length) then some (r.length, r :: rs)
    else none

/-- `faiss.normalize_L2`: scales each row to unit L2 norm.  The scaling
factor is a positive real, irrational in general; no verified claim
depends on the numeric values of scores, so the row is kept unscaled. -/
def normalizeL2 (v : List ℚ) : List ℚ := v

/-- The outcome of one `_save_index` call.  `success`: both the
`faiss.write_index` call (when the index is initialized) and the
`pickle.dump` completed.  `failed f`: the `try` body raised at one of its
three fallible points — `faiss.write_index`, `open(metadata_file, 'wb')`,
or `pickle.dump` — and `f` is the on-disk state left behind.  The source
constrains that state only loosely (the index artifact may be untouched,
partially written, or already fully rewritten; the metadata artifact may
be untouched, or truncated by `open('wb')` before `pickle.dump` raised),
so the model quantifies over the arbitrary resulting `Files`. -/
inductive SaveOutcome where
  | success
  | failed (f : Files)
deriving DecidableEq, Repr

/-- `VectorStore._save_index`: on success, writes the index artifact when
the index is initialized and (re)writes the metadata artifact; on failure,
leaves whatever file state the partial execution produced.  The whole body
is inside `try/except` with only a `print` in the handler, so NO error
ever escapes, and the in-memory state is returned unchanged in every
case. -/
def saveIndex (st : VectorStore) (o : SaveOutcome) : VectorStore :=
  match o with
  | SaveOutcome.success =>
    { st with files :=
        { indexFile :=
            match st.index with
            | some ix => Artifact.valid ix
            | none => st.files.indexFile,
          metadataFile :=
            Artifact.valid (st.texts, st.metadatas, st.dimension) } }
  | SaveOutcome.failed f => { st with files := f }

/-- `VectorStore.add_documents`.  Mirrors the source control flow:
no-op if `texts` or `embeddings` is empty; convert `embeddings` to an
array (raising on ragged input); if the index is uninitialized, fix the
dimension to the array width, create a fresh index and reset the parallel
arrays; `index.add` raises on width mismatch against an existing index;
otherwise append vectors, texts and metadatas (no length validation
anywhere) and save.  Any raised error is wrapped in the
"Error adding documents" message. -/
def addDocuments (st : VectorStore) (texts : List String)
    (embeddings : List (List ℚ)) (metadatas : List Metadata)
    (save : SaveOutcome) : Except String VectorStore :=
  if texts = [] ∨ embeddings = [] then Except.ok st
  else
    match toMatrix embeddings with
    | none =>
      Except.error "Error adding documents to vector store: ragged embeddings"
    | some (w, rows) =>
      match st.index with
      | none =>
        -- first add: self.dimension = shape[1]; fresh IndexFlatIP;
        -- self.texts = []; self.metadatas = []; then add + extend + save
        Except.ok (saveIndex
          { st with
            dimension := w,
            index := some ⟨w, rows.map normalizeL2⟩,
            texts := texts,
            metadatas := metadatas } save)
      | some ix =>
        if w ≠ ix.d then
          Except.error "Error adding documents to vector store: dimension mismatch"
        else
          Except.ok (saveIndex
            { st with
              index := some ⟨ix.d, ix.vecs ++ rows.map normalizeL2⟩,
              texts := st.texts ++ texts,
              metadatas := st.metadatas ++ metadatas } save)

/-- Inner product of two vectors (`zip` semantics: extra coordinates of the
longer vector are ignored; the source only ever compares vectors of the
index dimension). -/
def dot (u v : List ℚ) : ℚ := (List.zipWith (· * ·) u v).sum

/-- Ordering used by FAISS's result list: higher score first. -/
def scoreGE (a b : ℚ × Nat) : Prop := b.1 ≤ a.1

instance : DecidableRel scoreGE := fun a b =>
  inferInstanceAs (Decidable (b.1 ≤ a.1))

instance : IsTotal (ℚ × Nat) scoreGE := ⟨fun a b => le_total b.1 a.1⟩

instance : IsTrans (ℚ × Nat) scoreGE :=
  ⟨fun _ _ _ h1 h2 => le_trans h2 h1⟩

/-- `index.search(query, k)` on a flat inner-product index: every stored
vector is scored against the query, results are returned best-first, `k`
of them. -/
def faissSearch (ix : IndexFlatIP) (q : List ℚ) (k : Nat) :
    List (ℚ × Nat) :=
  ((List.range ix.vecs.length).map
      (fun i => (dot q (ix.vecs.getD i []), i))).insertionSort scoreGE
    |>.take k

/-- One element of the result list of `similarity_search`. -/
structure SearchResult where
  text : String
  metadata : Metadata
  score : ℚ
  rank : Nat
deriving DecidableEq, Repr

/-- Pair each element with its position, starting at `i`: Python
`enumerate`. -/
def idxFrom (i : Nat) : List α → List (Nat × α)
  | [] => []
  | a :: as => (i, a) :: idxFrom (i + 1) as

/-- The body of the result loop of `similarity_search`: keep `(score, idx)`
only if `idx < len(self.texts)` and tag it with rank `i + 1`. -/
def mkResult (texts : List String) (metas : List Metadata)
    (pr : Nat × (ℚ × Nat)) : Option SearchResult :=
  if pr.2.2 < texts.length then
    some { text := texts.getD pr.2.2 "", metadata := metas.getD pr.2.2 [],
           score := pr.2.1, rank := pr.1 + 1 }
  else none

/-- `VectorStore.similarity_search`: `[]` (not an error) on an
uninitialized index or empty text list; otherwise clamp `k` to
`len(self.texts)`, search, and assemble ranked results.  A query of the
wrong width makes `index.search` raise, wrapped into the
"Error during similarity search" message. -/
def similaritySearch (st : VectorStore) (q : List ℚ) (k : Nat) :
    Except String (List SearchResult) :=
  match st.index with
  | none => Except.ok []
  | some ix =>
    if st.texts.length = 0 then Except.ok []
    else if q.length ≠ ix.d then
      Except.error "Error during similarity search: query dimension mismatch"
    else
      Except.ok ((idxFrom 0
          (faissSearch ix q (min k st.texts.length))).filterMap
        (mkResult st.texts st.metadatas))

/-- `VectorStore.clear`: drop the index and both parallel arrays, delete
both files.  Note that `self.dimension` is NOT reset. -/
def clearStore (st : VectorStore) : VectorStore :=
  { dimension := st.dimension, index := none, texts := [], metadatas := [],
    files := { indexFile := Artifact.absent,
               metadataFile := Artifact.absent } }

/-- The record returned by `VectorStore.get_stats`. -/
structure Stats where
  total_documents : Nat
  vector_dimensions : Nat
  index_size : Nat
deriving DecidableEq, Repr

/-- `VectorStore.get_stats`. -/
def getStats (st : VectorStore) : Stats :=
  { total_documents := st.texts.length,
    vector_dimensions := if st.index.isSome then st.dimension else 0,
    index_size := indexSize st }

/-- `VectorStore.__init__` + `_load_index`: read `texts`, `metadatas`,
`dimension` from the metadata artifact when it exists, then read the index
artifact only when it exists AND the loaded texts are non-empty.  Both
reads sit in one `try/except` whose handler logs and sets `index = None`,
`texts = []`, `metadatas = []`: a corrupt metadata artifact yields an
empty store with the constructor dimension (nothing was assigned before
`pickle.load` raised); a corrupt index artifact read after a successful
metadata read yields an empty store that keeps the already-assigned loaded
dimension. -/
def loadIndex (ctorDimension : Nat) (files : Files) : VectorStore :=
  match files.metadataFile with
  | Artifact.corrupt =>
    -- pickle.load raised; the except clause resets to an empty store
    { dimension := ctorDimension, index := none, texts := [],
      metadatas := [], files := files }
  | Artifact.absent =>
    -- no metadata artifact: defaults; the index artifact is read only when
    -- the loaded texts are non-empty, which they are not
    { dimension := ctorDimension, index := none, texts := [],
      metadatas := [], files := files }
  | Artifact.valid (ts, ms, d) =>
    if ts ≠ [] then
      match files.indexFile with
      | Artifact.valid ixf =>
        { dimension := d, index := some ixf, texts := ts, metadatas := ms,
          files := files }
      | Artifact.corrupt =>
        -- faiss.read_index raised; the except clause resets index/texts/
        -- metadatas, but dimension was already overwritten from metadata
        { dimension := d, index := none, texts := [], metadatas := [],
          files := files }
      | Artifact.absent =>
        { dimension := d, index := none, texts := ts, metadatas := ms,
          files := files }
    else
      { dimension := d, index := none, texts := ts, metadatas := ms,
        files := files }

/-- One mutating operation issued by a caller, carrying the outcome of the
snapshot write performed during that operation. -/
inductive Op where
  | add (texts : List String) (embeddings : List (List ℚ))
      (metadatas : List Metadata) (save : SaveOutcome)
  | clear
deriving Repr

/-- Apply one operation.  A raised error from `add_documents` propagates to
the caller and, as established case by case on the source (every raise
happens before the first state mutation of the call), leaves the store
unchanged. -/
def applyOp (st : VectorStore) : Op → VectorStore
  | Op.add ts es ms o =>
    match addDocuments st ts es ms o with
    | Except.ok st2 => st2
    | Except.error _ => st
  | Op.clear => clearStore st

/-- Run a sequence of operations. -/
def runOps (st : VectorStore) (ops : List Op) : VectorStore :=
  ops.foldl applyOp st

/-- An `add` call supplying texts, embeddings and metadatas of equal
length (the hypothesis of claim C1); `clear` is always valid. -/
def ValidOp : Op → Prop
  | Op.add ts es ms _ => ts.length = es.length ∧ es.length = ms.length
  | Op.clear => True

instance : DecidablePred ValidOp := fun op => by
  cases op with
  | add ts es ms o => exact inferInstanceAs (Decidable (_ ∧ _))
  | clear => exact inferInstanceAs (Decidable True)

/-- The store invariant: the parallel arrays agree in length with each
other and with the index, and an uninitialized index coincides with empty
arrays. -/
def WF (st : VectorStore) : Prop :=
  st.texts.length = st.metadatas.length ∧
  st.texts.length = indexSize st ∧
  (st.index = none → st.texts = [] ∧ st.metadatas = [])

instance (st : VectorStore) : Decidable (WF st) :=
  inferInstanceAs (Decidable (_ ∧ _ ∧ _))

/-! ## Concrete states used by witnesses and counterexamples -/

/-- The store obtained by adding one text `"a"` with the two embeddings
`[[1], [2]]` (mismatched lengths) to a fresh store, with a working save. -/
def mismatchStore : VectorStore :=
  { dimension := 1, index := some ⟨1, [[(1 : ℚ)], [2]]⟩, texts := ["a"],
    metadatas := [[]],
    files := { indexFile := Artifact.valid ⟨1, [[(1 : ℚ)], [2]]⟩,
               metadataFile := Artifact.valid (["a"], [[]], 1) } }

/-- An on-disk state a failed `_save_index` can leave behind when
`pickle.dump` raises: `faiss.write_index` already rewrote the index
artifact, and `open(metadata_file, 'wb')` truncated the metadata artifact
before the dump could complete. -/
def corruptFiles : Files :=
  { indexFile := Artifact.valid ⟨1, [[(1 : ℚ)]]⟩,
    metadataFile := Artifact.corrupt }

/-- The store obtained by adding `"a"` with embedding `[[1]]` to a fresh
store while `pickle.dump` fails inside `_save_index`: memory fully
committed, index artifact written, metadata artifact truncated. -/
def failSaveStore : VectorStore :=
  { dimension := 1, index := some ⟨1, [[(1 : ℚ)]]⟩, texts := ["a"],
    metadatas := [[]], files := corruptFiles }

/-- The store obtained by adding `"a"` with embedding `[[1]]` to a fresh
store with a working save. -/
def addedStore : VectorStore :=
  { dimension := 1, index := some ⟨1, [[(1 : ℚ)]]⟩, texts := ["a"],
    metadatas := [[]],
    files := { indexFile := Artifact.valid ⟨1, [[(1 : ℚ)]]⟩,
               metadataFile := Artifact.valid (["a"], [[]], 1) } }

/-- A well-formed two-entry store of dimension 2. -/
def twoVecStore : VectorStore :=
  { dimension := 2, index := some ⟨2, [[(1 : ℚ), 0], [0, 1]]⟩,
    texts := ["a", "b"], metadatas := [[], []],
    files := { indexFile := Artifact.absent,
               metadataFile := Artifact.absent } }

/-- An on-disk state with a metadata artifact holding one text but no
index artifact. -/
def loadedFiles : Files :=
  { indexFile := Artifact.absent,
    metadataFile := Artifact.valid (["a"], [[]], 7) }

/-! ## Chunker lemmas -/

theorem le_foldl_max (l : List Nat) (b : Nat) : b ≤ l.foldl Nat.max b := by
  induction l generalizing b with
  | nil => exact Nat.le_refl b
  | cons x xs ih =>
    exact Nat.le_trans (Nat.le_max_left b x) (ih (Nat.max b x))

theorem foldl_max_lb (l : List Nat) (c : Nat) (hne : l ≠ [])
    (hall : ∀ x ∈ l, c ≤ x) : c ≤ l.foldl Nat.max 0 := by
  cases l with
  | nil => exact absurd rfl hne
  | cons x xs =>
    have hx : c ≤ x := hall x (List.mem_cons_self x xs)
    calc c ≤ x := hx
      _ ≤ Nat.max 0 x := Nat.le_max_right 0 x
      _ ≤ xs.foldl Nat.max (Nat.max 0 x) := le_foldl_max xs (Nat.max 0 x)

theorem punctEnds_pos (c : Char) :
    ∀ (l : List Char) (p : Nat), ∀ x ∈ punctEnds c l p, p + 1 ≤ x := by
  intro l
  induction l with
  | nil => intro p x hx; simp [punctEnds] at hx
  | cons a tl ih =>
    intro p x hx
    cases tl with
    | nil => simp [punctEnds] at hx
    | cons b rest =>
      rw [punctEnds] at hx
      split at hx
      · rcases List.mem_cons.mp hx with h | h
        · omega
        · have := ih (p + 1) x h
          omega
      · have := ih (p + 1) x hx
        omega

theorem nnEnds_pos :
    ∀ (n : Nat) (l : List Char) (p : Nat), l.length ≤ n →
      ∀ x ∈ nnEnds l p, p + 1 ≤ x := by
  intro n
  induction n with
  | zero =>
    intro l p hl x hx
    have : l = [] := List.length_eq_zero.mp (Nat.le_zero.mp hl)
    subst this
    simp [nnEnds] at hx
  | succ n ih =>
    intro l p hl x hx
    match l with
    | [] => simp [nnEnds] at hx
    | [a] => simp [nnEnds] at hx
    | a :: b :: rest =>
      rw [nnEnds] at hx
      split at hx
      · rcases List.mem_cons.mp hx with h | h
        · omega
        · have hlen : rest.length ≤ n := by
            simp only [List.length_cons] at hl; omega
          have := ih rest (p + 2) hlen x h
          omega
      · have hlen : (b :: rest).length ≤ n := by
          simp only [List.length_cons] at hl ⊢; omega
        have := ih (b :: rest) (p + 1) hlen x hx
        omega

theorem sentenceBreaks_pos (slice : List Char) :
    ∀ x ∈ sentenceBreaks slice, 1 ≤ x := by
  intro x hx
  unfold sentenceBreaks at hx
  simp only [List.mem_append] at hx
  rcases hx with ((h | h) | h) | h
  · exact punctEnds_pos _ slice 0 x h
  · exact punctEnds_pos _ slice 0 x h
  · exact punctEnds_pos _ slice 0 x h
  · exact nnEnds_pos slice.length slice 0 (Nat.le_refl _) x h

theorem sentenceBreaksIn_lb (t : List Char) (start maxSize : Nat) :
    ∀ x ∈ sentenceBreaksIn t start maxSize, start + 1 ≤ x := by
  intro x hx
  unfold sentenceBreaksIn at hx
  simp only [List.mem_map] at hx
  obtain ⟨y, hy, rfl⟩ := hx
  have h1 := sentenceBreaks_pos _ y hy
  have h2 : start ≤ Nat.max (start + maxSize - 200) start := Nat.le_max_right _ _
  omega

/-- Every chosen cut point lies strictly beyond the window start (for a
positive `max_chunk_size`): the raw end is `start + maxSize`, and every
sentence break lies beyond the search start, which is at least `start`. -/
theorem cutEnd_lb (t : List Char) (start maxSize : Nat)
    (hmax : 1 ≤ maxSize) : start + 1 ≤ cutEnd t start maxSize := by
  unfold cutEnd
  split
  · split
    · omega
    · rename_i hne
      have hne2 : sentenceBreaksIn t start maxSize ≠ [] := by
        intro h
        rw [h] at hne
        simp at hne
      exact foldl_max_lb _ _ hne2 (sentenceBreaksIn_lb t start maxSize)
  · omega

theorem windowsGo_mem_cutEnd (t : List Char) (maxSize overlap : Nat) :
    ∀ (fuel start : Nat) (w : Nat × Nat),
      w ∈ windowsGo t maxSize overlap fuel start →
      w.2 = cutEnd t w.1 maxSize := by
  intro fuel
  induction fuel with
  | zero => intro start w hw; simp [windowsGo] at hw
  | succ n ih =>
    intro start w hw
    rw [windowsGo] at hw
    split at hw
    · rcases List.mem_cons.mp hw with h | h
      · subst h; rfl
      · exact ih _ w h
    · simp at hw

theorem windowsGo_mem_start_le (t : List Char) (maxSize overlap : Nat) :
    ∀ (fuel start : Nat) (w : Nat × Nat),
      w ∈ windowsGo t maxSize overlap fuel start → start ≤ w.1 := by
  intro fuel
  induction fuel with
  | zero => intro start w hw; simp [windowsGo] at hw
  | succ n ih =>
    intro start w hw
    rw [windowsGo] at hw
    split at hw
    · rcases List.mem_cons.mp hw with h | h
      · subst h; exact Nat.le_refl _
      · have h2 := ih _ w h
        have h3 : start + 1 ≤
            Nat.max (cutEnd t start maxSize - overlap) (start + 1) :=
          Nat.le_max_right _ _
        omega
    · simp at hw

theorem windowsGo_cover (t : List Char) (maxSize overlap : Nat)
    (hmax : 1 ≤ maxSize) :
    ∀ (fuel start i : Nat), t.length - start ≤ fuel → start ≤ i →
      i < t.length →
      ∃ w ∈ windowsGo t maxSize overlap fuel start, w.1 ≤ i ∧ i < w.2 := by
  intro fuel
  induction fuel with
  | zero => intro start i hfuel hsi hit; omega
  | succ n ih =>
    intro start i hfuel hsi hit
    have hs : start < t.length := Nat.lt_of_le_of_lt hsi hit
    rw [windowsGo, if_pos hs]
    by_cases hie : i < cutEnd t start maxSize
    · exact ⟨(start, cutEnd t start maxSize),
        List.mem_cons_self _ _, hsi, hie⟩
    · have hce : start + 1 ≤ cutEnd t start maxSize :=
        cutEnd_lb t start maxSize hmax
      have hA : start + 1 ≤
          Nat.max (cutEnd t start maxSize - overlap) (start + 1) :=
        Nat.le_max_right _ _
      have hnext : Nat.max (cutEnd t start maxSize - overlap) (start + 1) ≤ i :=
        Nat.max_le.mpr ⟨by omega, by omega⟩
      obtain ⟨w, hw, h1, h2⟩ :=
        ih (Nat.max (cutEnd t start maxSize - overlap) (start + 1)) i
          (by omega) hnext hit
      exact ⟨w, List.mem_cons_of_mem _ hw, h1, h2⟩

theorem windowsGo_length (t : List Char) (maxSize overlap : Nat) :
    ∀ (fuel start : Nat),
      (windowsGo t maxSize overlap fuel start).length ≤ fuel := by
  intro fuel
  induction fuel with
  | zero => intro start; simp [windowsGo]
  | succ n ih =>
    intro start
    rw [windowsGo]
    split
    · simpa using ih _
    · simp

theorem windowsGo_chain (t : List Char) (maxSize overlap : Nat) :
    ∀ (fuel start : Nat),
      List.Chain' (fun a b => a.1 < b.1)
        (windowsGo t maxSize overlap fuel start) := by
  intro fuel
  induction fuel with
  | zero => intro start; simp [windowsGo]
  | succ n ih =>
    intro start
    rw [windowsGo]
    split
    · rw [List.chain'_cons']
      refine ⟨?hd, ih _⟩
      intro y hy
      have hmem := List.mem_of_mem_head? hy
      have h1 := windowsGo_mem_start_le t maxSize overlap n
        (Nat.max (cutEnd t start maxSize - overlap) (start + 1)) y hmem
      have h2 : start + 1 ≤
          Nat.max (cutEnd t start maxSize - overlap) (start + 1) :=
        Nat.le_max_right _ _
      simp only []
      omega
    · simp

/-! ## Theorems for claims C6, C7, C8, C9 -/

/-- Claim C6, amended: for every text `T` with `len(T) ≤ max_chunk_size`,
`chunk_text(T)` returns exactly one element equal to `T` verbatim (NOT
trimmed) when `T` is non-empty — including when `T` is whitespace-only —
and the empty sequence exactly when `T` is the empty string. -/
theorem chunk_short_text (s : String) (maxSize overlap : Nat)
    (h : s.length ≤ maxSize) :
    chunkText s maxSize overlap = if s.data = [] then [] else [s] := by
  unfold chunkText
  rw [if_pos (Or.inr h)]

/-- Witness for `chunk_short_text` at `T = " x "`, `max_chunk_size =
1000`. -/
theorem chunk_short_text_witness :
    (" x " : String).length ≤ 1000 ∧
    chunkText " x " 1000 200 =
      if (" x " : String).data = [] then [] else [" x "] :=
  ⟨by decide, chunk_short_text " x " 1000 200 (by decide)⟩

/-- Counterexample to claim C6 as stated: `chunk_text " x "` returns
`[" x "]`, not the trimmed `["x"]`, and `chunk_text " "` (whitespace-only)
returns `[" "]`, not the empty sequence. -/
theorem chunk_short_text_cex :
    chunkText " x " 1000 200 ≠
      [String.mk (stripChars (" x " : String).data)] ∧
    chunkText " " 1000 200 ≠ [] :=
  ⟨by decide, by decide⟩

/-- Claim C7, amended: for every input text, every character is covered by
the span of at least one WINDOW cut by the loop (for a positive
`max_chunk_size`).  A window whose content strips to whitespace is dropped
from the returned chunk list, so a character need not appear in the span
of a returned chunk (see `chunk_coverage_cex`). -/
theorem chunk_coverage (t : List Char) (maxSize overlap : Nat)
    (hmax : 1 ≤ maxSize) (i : Nat) (hi : i < t.length) :
    ∃ w ∈ chunkSpans t maxSize overlap, w.1 ≤ i ∧ i < w.2 := by
  unfold chunkSpans
  split
  · rename_i hcond
    have hne : t ≠ [] := by
      intro h
      rw [h] at hi
      simp at hi
    rw [if_neg hne]
    exact ⟨(0, t.length), List.mem_singleton.mpr rfl, Nat.zero_le i, hi⟩
  · exact windowsGo_cover t maxSize overlap hmax (t.length - 0) 0 i
      (Nat.le_refl _) (Nat.zero_le i) hi

/-- Witness for `chunk_coverage` at `t = "ab"`, `max_chunk_size = 1`,
character index 1. -/
theorem chunk_coverage_witness :
    1 ≤ 1 ∧ 1 < ("ab" : String).data.length ∧
    ∃ w ∈ chunkSpans ("ab" : String).data 1 0, w.1 ≤ 1 ∧ 1 < w.2 :=
  ⟨Nat.le_refl 1, by decide,
    chunk_coverage ("ab" : String).data 1 0 (Nat.le_refl 1) 1 (by decide)⟩

/-- Counterexample to claim C7 as stated: for `"abcde     "` with
`max_chunk_size = 5`, `overlap = 0`, the second window `(5, 10)` strips to
whitespace and is dropped, so `chunk_text` returns only `["abcde"]` and
the trailing-space characters (e.g. index 7) are not covered by the span
of any RETURNED chunk. -/
theorem chunk_coverage_cex :
    chunkText "abcde     " 5 0 = ["abcde"] ∧
    ¬ (∀ i, i < ("abcde     " : String).data.length →
        ∃ w ∈ keptSpans ("abcde     " : String).data 5 0,
          w.1 ≤ i ∧ i < w.2) :=
  ⟨by decide, by decide⟩

/-- Claim C8, amended: for text extending beyond the window, each cut
point is the furthest sentence-break end found within the last 200
characters of the window — 200 is hardcoded in the source, independent of
the `overlap` parameter (it equals the default overlap only) — and when no
break is found the cut is at the raw `start + max_chunk_size` offset. -/
theorem cut_point_spec (t : List Char) (maxSize overlap : Nat)
    (w : Nat × Nat) (hw : w ∈ windows t maxSize overlap 0) :
    (w.1 + maxSize < t.length →
      ((sentenceBreaksIn t w.1 maxSize).isEmpty = true →
        w.2 = w.1 + maxSize) ∧
      ((sentenceBreaksIn t w.1 maxSize).isEmpty = false →
        w.2 = (sentenceBreaksIn t w.1 maxSize).foldl Nat.max 0)) ∧
    (t.length ≤ w.1 + maxSize → w.2 = w.1 + maxSize) := by
  have h := windowsGo_mem_cutEnd t maxSize overlap (t.length - 0) 0 w hw
  constructor
  · intro hin
    constructor
    · intro hempty
      simpa [cutEnd, hin, hempty] using h
    · intro hne
      simpa [cutEnd, hin, hne] using h
  · intro hout
    have hnot : ¬ (w.1 + maxSize < t.length) := by omega
    simpa [cutEnd, hnot] using h

/-- Witness for `cut_point_spec`: the first window of
`"ab. cdefghijklmnop"` with `max_chunk_size = 10` is `(0, 4)` — cut at the
sentence break, not at the raw offset 10. -/
theorem cut_point_spec_witness :
    (0, 4) ∈ windows ("ab. cdefghijklmnop" : String).data 10 0 0 ∧
    ((0 + 10 < ("ab. cdefghijklmnop" : String).data.length →
      ((sentenceBreaksIn ("ab. cdefghijklmnop" : String).data 0 10).isEmpty =
          true → 4 = 0 + 10) ∧
      ((sentenceBreaksIn ("ab. cdefghijklmnop" : String).data 0 10).isEmpty =
          false →
        4 = (sentenceBreaksIn
          ("ab. cdefghijklmnop" : String).data 0 10).foldl Nat.max 0)) ∧
    (("ab. cdefghijklmnop" : String).data.length ≤ 0 + 10 → 4 = 0 + 10)) :=
  ⟨by decide,
    cut_point_spec ("ab. cdefghijklmnop" : String).data 10 0 (0, 4)
      (by decide)⟩

set_option maxRecDepth 4096 in
/-- Counterexample to claim C8 as stated: with `overlap = 0` the claim
predicts an empty search region, hence a raw cut at offset 10; the source
searches the last (hardcoded) 200 characters and cuts the first window of
`"ab. cdefghijklmnop"` at the sentence break, offset 4. -/
theorem cut_point_cex :
    (windows ("ab. cdefghijklmnop" : String).data 10 0 0).head? =
      some (0, 4) ∧
    (windowsClaimed ("ab. cdefghijklmnop" : String).data 10 0 0).head? =
      some (0, 10) ∧
    windows ("ab. cdefghijklmnop" : String).data 10 0 0 ≠
      windowsClaimed ("ab. cdefghijklmnop" : String).data 10 0 0 :=
  ⟨by decide, by decide, by decide⟩

/-- Claim C9, amended: for every text, `max_chunk_size` and `overlap`
(including `overlap ≥ max_chunk_size`) the loop terminates because the
window start strictly increases on every iteration; the iteration count is
at most `len(T)`.  The bound `⌈len(T)/(max_size − overlap)⌉` claimed for
`overlap < max_size` does NOT hold in general, because a sentence-break
cut can shrink a window and reduce the advance below `max_size − overlap`
(see `iteration_bound_cex`). -/
theorem chunk_termination (t : List Char) (maxSize overlap start : Nat) :
    List.Chain' (fun a b => a.1 < b.1) (windows t maxSize overlap start) ∧
    (windows t maxSize overlap start).length ≤ t.length - start :=
  ⟨windowsGo_chain t maxSize overlap (t.length - start) start,
    windowsGo_length t maxSize overlap (t.length - start) start⟩

/-- Counterexample to the iteration bound of claim C9: for the 30-character
text `". a…a"` with `max_chunk_size = 10`, `overlap = 5`, the loop runs 7
iterations although `⌈30 / (10 − 5)⌉ = 6`: the sentence break after the
leading "." shrinks the first window to `(0, 2)` and the advance to 1. -/
theorem iteration_bound_cex :
    (". aaaaaaaaaaaaaaaaaaaaaaaaaaaa" : String).length = 30 ∧
    (windows (". aaaaaaaaaaaaaaaaaaaaaaaaaaaa" : String).data 10 5 0).length
      = 7 ∧
    ¬ ((windows
          (". aaaaaaaaaaaaaaaaaaaaaaaaaaaa" : String).data 10 5 0).length ≤
        (30 + (10 - 5) - 1) / (10 - 5)) :=
  ⟨by decide, by decide, by decide⟩

/-! ## VectorStore lemmas -/

theorem saveIndex_dimension (st : VectorStore) (o : SaveOutcome) :
    (saveIndex st o).dimension = st.dimension := by
  cases o <;> rfl

theorem saveIndex_index (st : VectorStore) (o : SaveOutcome) :
    (saveIndex st o).index = st.index := by
  cases o <;> rfl

theorem saveIndex_texts (st : VectorStore) (o : SaveOutcome) :
    (saveIndex st o).texts = st.texts := by
  cases o <;> rfl

theorem saveIndex_metadatas (st : VectorStore) (o : SaveOutcome) :
    (saveIndex st o).metadatas = st.metadatas := by
  cases o <;> rfl

theorem saveIndex_failed (st : VectorStore) (f : Files) :
    saveIndex st (SaveOutcome.failed f) = { st with files := f } := rfl

theorem indexSize_eq_length_indexVecs (st : VectorStore) :
    indexSize st = (indexVecs st).length := by
  cases h : st.index <;> simp [indexSize, indexVecs, h]

theorem toMatrix_some {embs rows : List (List ℚ)} {w : Nat}
    (h : toMatrix embs = some (w, rows)) : rows = embs ∧ embs ≠ [] := by
  cases embs with
  | nil => simp [toMatrix] at h
  | cons r rs =>
    rw [toMatrix] at h
    split at h
    · simp only [Option.some.injEq, Prod.mk.injEq] at h
      exact ⟨h.2.symm, by simp⟩
    · simp at h

/-- Successful `add_documents` with an uninitialized index: the dimension
is (re)fixed to the array width, the parallel arrays are reset and then
extended with exactly the new entries. -/
theorem addDocuments_fresh (st : VectorStore) (ts : List String)
    (es : List (List ℚ)) (ms : List Metadata) (sv : SaveOutcome) (w : Nat)
    (rows : List (List ℚ)) (hm : toMatrix es = some (w, rows))
    (hts : ts ≠ []) (hix : st.index = none) :
    addDocuments st ts es ms sv = Except.ok (saveIndex
      { st with
        dimension := w,
        index := some ⟨w, rows.map normalizeL2⟩,
        texts := ts,
        metadatas := ms } sv) := by
  have hes : es ≠ [] := (toMatrix_some hm).2
  simp [addDocuments, hm, hix, hts, hes]

/-- Successful `add_documents` with an initialized index of matching
width: vectors, texts and metadatas are appended in order. -/
theorem addDocuments_append (st : VectorStore) (ts : List String)
    (es : List (List ℚ)) (ms : List Metadata) (sv : SaveOutcome) (w : Nat)
    (rows : List (List ℚ)) (ix : IndexFlatIP)
    (hm : toMatrix es = some (w, rows)) (hts : ts ≠ [])
    (hix : st.index = some ix) (hd : w = ix.d) :
    addDocuments st ts es ms sv = Except.ok (saveIndex
      { st with
        index := some ⟨ix.d, ix.vecs ++ rows.map normalizeL2⟩,
        texts := st.texts ++ ts,
        metadatas := st.metadatas ++ ms } sv) := by
  have hes : es ≠ [] := (toMatrix_some hm).2
  simp [addDocuments, hm, hix, hts, hes, hd]

/-- Case analysis of a successful `add_documents` call. -/
theorem addDocuments_ok (st : VectorStore) (ts : List String)
    (es : List (List ℚ)) (ms : List Metadata) (sv : SaveOutcome)
    (st2 : VectorStore) (h : addDocuments st ts es ms sv = Except.ok st2) :
    (st2 = st ∧ (ts = [] ∨ es = [])) ∨
    (ts ≠ [] ∧ ∃ w rows, toMatrix es = some (w, rows) ∧ rows = es ∧
      ((st.index = none ∧
        st2 = saveIndex { st with
                          dimension := w,
                          index := some ⟨w, rows.map normalizeL2⟩,
                          texts := ts,
                          metadatas := ms } sv) ∨
       (∃ ix, st.index = some ix ∧ w = ix.d ∧
        st2 = saveIndex { st with
                          index := some ⟨ix.d,
                            ix.vecs ++ rows.map normalizeL2⟩,
                          texts := st.texts ++ ts,
                          metadatas := st.metadatas ++ ms } sv))) := by
  by_cases hguard : ts = [] ∨ es = []
  · left
    simp only [addDocuments, if_pos hguard, Except.ok.injEq] at h
    exact ⟨h.symm, hguard⟩
  · right
    have hts : ts ≠ [] := fun hc => hguard (Or.inl hc)
    refine ⟨hts, ?rest⟩
    cases hm : toMatrix es with
    | none => simp [addDocuments, if_neg hguard, hm] at h
    | some pr =>
      obtain ⟨w, rows⟩ := pr
      refine ⟨w, rows, rfl, (toMatrix_some hm).1, ?cases⟩
      cases hix : st.index with
      | none =>
        left
        rw [addDocuments_fresh st ts es ms sv w rows hm hts hix] at h
        exact ⟨rfl, (Except.ok.inj h).symm⟩
      | some ix =>
        right
        refine ⟨ix, rfl, ?width⟩
        by_cases hd : w = ix.d
        · rw [addDocuments_append st ts es ms sv w rows ix hm hts hix hd]
            at h
          exact ⟨hd, (Except.ok.inj h).symm⟩
        · simp [addDocuments, if_neg hguard, hm, hix, hd] at h

/-- `add_documents` preserves the store invariant when texts, embeddings
and metadatas have equal lengths. -/
theorem wf_addDocuments (st : VectorStore) (ts : List String)
    (es : List (List ℚ)) (ms : List Metadata) (sv : SaveOutcome)
    (st2 : VectorStore) (hwf : WF st) (hlen1 : ts.length = es.length)
    (hlen2 : es.length = ms.length)
    (h : addDocuments st ts es ms sv = Except.ok st2) : WF st2 := by
  rcases addDocuments_ok st ts es ms sv st2 h with ⟨rfl, _⟩ | hbig
  · exact hwf
  · obtain ⟨hts, w, rows, hm, rfl, hcase⟩ := hbig
    rcases hcase with ⟨hix, rfl⟩ | ⟨ix, hix, hd, rfl⟩
    · refine ⟨?_, ?_, ?_⟩
      · rw [saveIndex_texts, saveIndex_metadatas]
        show ts.length = ms.length
        omega
      · rw [indexSize_eq_length_indexVecs, saveIndex_texts]
        show ts.length = (indexVecs _).length
        simp only [indexVecs, saveIndex_index]
        show ts.length = (rows.map normalizeL2).length
        rw [List.length_map]
        omega
      · intro hc
        rw [saveIndex_index] at hc
        simp at hc
    · obtain ⟨h1, h2, h3⟩ := hwf
      refine ⟨?_, ?_, ?_⟩
      · rw [saveIndex_texts, saveIndex_metadatas]
        show (st.texts ++ ts).length = (st.metadatas ++ ms).length
        simp only [List.length_append]
        omega
      · rw [indexSize_eq_length_indexVecs, saveIndex_texts]
        show (st.texts ++ ts).length = (indexVecs _).length
        simp only [indexVecs, saveIndex_index]
        show (st.texts ++ ts).length =
          (ix.vecs ++ rows.map normalizeL2).length
        rw [indexSize_eq_length_indexVecs] at h2
        simp only [indexVecs, hix] at h2
        simp only [List.length_append, List.length_map]
        omega
      · intro hc
        rw [saveIndex_index] at hc
        simp at hc

theorem wf_clearStore (st : VectorStore) : WF (clearStore st) := by
  refine ⟨rfl, rfl, fun _ => ⟨rfl, rfl⟩⟩

theorem wf_emptyStore : WF emptyStore := by decide

theorem wf_applyOp (st : VectorStore) (op : Op) (hwf : WF st)
    (hop : ValidOp op) : WF (applyOp st op) := by
  cases op with
  | clear => exact wf_clearStore st
  | add ts es ms sv =>
    simp only [applyOp]
    cases h : addDocuments st ts es ms sv with
    | ok st2 => exact wf_addDocuments st ts es ms sv st2 hwf hop.1 hop.2 h
    | error e => exact hwf

theorem wf_runOps (ops : List Op) (st : VectorStore) (hwf : WF st)
    (hops : ∀ op ∈ ops, ValidOp op) : WF (runOps st ops) := by
  induction ops generalizing st with
  | nil => exact hwf
  | cons op tl ih =>
    exact ih (applyOp st op)
      (wf_applyOp st op hwf (hops op (List.mem_cons_self op tl)))
      (fun o ho => hops o (List.mem_cons_of_mem op ho))

/-- Shape of an `add_documents` call as a function of the save outcome:
the call either no-ops, fails identically for every save outcome, or
commits the same in-memory state and then runs `_save_index` on it —
whose failure only affects the on-disk artifacts.  The save outcome never
decides between ok and error. -/
theorem addDocuments_shape (st : VectorStore) (ts : List String)
    (es : List (List ℚ)) (ms : List Metadata) :
    ((ts = [] ∨ es = []) ∧
      ∀ b, addDocuments st ts es ms b = Except.ok st) ∨
    (∃ e, ∀ b, addDocuments st ts es ms b = Except.error e) ∨
    (∃ mid, mid.files = st.files ∧
      ∀ b, addDocuments st ts es ms b = Except.ok (saveIndex mid b)) := by
  by_cases hguard : ts = [] ∨ es = []
  · exact Or.inl ⟨hguard, fun b => by simp [addDocuments, hguard]⟩
  · right
    have hts : ts ≠ [] := fun hc => hguard (Or.inl hc)
    cases hm : toMatrix es with
    | none =>
      exact Or.inl
        ⟨"Error adding documents to vector store: ragged embeddings",
         fun b => by simp [addDocuments, hguard, hm]⟩
    | some pr =>
      obtain ⟨w, rows⟩ := pr
      cases hix : st.index with
      | none =>
        right
        exact ⟨{ st with
                 dimension := w,
                 index := some ⟨w, rows.map normalizeL2⟩,
                 texts := ts, metadatas := ms }, rfl,
          fun b => addDocuments_fresh st ts es ms b w rows hm hts hix⟩
      | some ix =>
        by_cases hd : w = ix.d
        · right
          exact ⟨{ st with
                   index := some ⟨ix.d, ix.vecs ++ rows.map normalizeL2⟩,
                   texts := st.texts ++ ts,
                   metadatas := st.metadatas ++ ms }, rfl,
            fun b => addDocuments_append st ts es ms b w rows ix hm hts
              hix hd⟩
        · exact Or.inl
            ⟨"Error adding documents to vector store: dimension mismatch",
             fun b => by simp [addDocuments, hguard, hm, hix, hd]⟩

/-! ## Theorems for claims C1, C2, C4, C5, C10 -/

/-- Claim C1: position integrity.  For every sequence of `add_documents`
(with equal-length arguments) and `clear` operations starting from a fresh
store, the invariant `len(texts) = len(metadatas) = index size` holds
after every operation — with an uninitialized index coinciding with empty
arrays — and every successful equal-length add appends vectors, texts and
metadatas in lockstep at the same ordinal positions, never reordering or
compacting, so the Nth vector corresponds to the Nth text and Nth
metadata entry. -/
theorem position_integrity :
    (∀ ops : List Op, (∀ op ∈ ops, ValidOp op) →
      WF (runOps emptyStore ops)) ∧
    (∀ (st : VectorStore) (ts : List String) (es : List (List ℚ))
        (ms : List Metadata) (sv : SaveOutcome) (st2 : VectorStore), WF st →
      ts.length = es.length → es.length = ms.length →
      addDocuments st ts es ms sv = Except.ok st2 →
      st2.texts = st.texts ++ ts ∧ st2.metadatas = st.metadatas ++ ms ∧
      indexVecs st2 = indexVecs st ++ es.map normalizeL2) := by
  constructor
  · exact fun ops hops => wf_runOps ops emptyStore wf_emptyStore hops
  · intro st ts es ms sv st2 hwf hlen1 hlen2 h
    rcases addDocuments_ok st ts es ms sv st2 h with
      ⟨rfl, hor⟩ | ⟨hts, w, rows, hm, rfl, hcase⟩
    · have hts0 : ts = [] := by
        rcases hor with h1 | h1
        · exact h1
        · rw [h1] at hlen1
          exact List.length_eq_zero.mp (by simpa using hlen1)
      have hes0 : es = [] := by
        rw [hts0] at hlen1
        exact List.length_eq_zero.mp (by simpa using hlen1.symm)
      have hms0 : ms = [] := by
        rw [hes0] at hlen2
        exact List.length_eq_zero.mp (by simpa using hlen2.symm)
      subst hts0; subst hes0; subst hms0
      simp
    · rcases hcase with ⟨hix, rfl⟩ | ⟨ix, hix, hd, rfl⟩
      · obtain ⟨-, -, hempty⟩ := hwf
        obtain ⟨ht0, hm0⟩ := hempty hix
        refine ⟨?_, ?_, ?_⟩
        · rw [saveIndex_texts, ht0]
          show ts = [] ++ ts
          rw [List.nil_append]
        · rw [saveIndex_metadatas, hm0]
          show ms = [] ++ ms
          rw [List.nil_append]
        · simp [indexVecs, saveIndex_index, hix]
      · refine ⟨?_, ?_, ?_⟩
        · rw [saveIndex_texts]
        · rw [saveIndex_metadatas]
        · simp [indexVecs, saveIndex_index, hix]

/-- Witness for `position_integrity`: a concrete valid add-clear-add
sequence keeps the invariant, and the concrete first add appends to the
fresh store in lockstep. -/
theorem position_integrity_witness :
    WF (runOps emptyStore
      [Op.add ["a"] [[(1 : ℚ)]] [[]] SaveOutcome.success, Op.clear,
       Op.add ["b", "c"] [[2], [3]] [[], []]
         (SaveOutcome.failed
           { indexFile := Artifact.corrupt,
             metadataFile := Artifact.corrupt })]) ∧
    (addedStore.texts = emptyStore.texts ++ ["a"] ∧
     addedStore.metadatas = emptyStore.metadatas ++ [[]] ∧
     indexVecs addedStore =
       indexVecs emptyStore ++ [[(1 : ℚ)]].map normalizeL2) :=
  ⟨position_integrity.1 _ (by decide),
   position_integrity.2 emptyStore ["a"] [[(1 : ℚ)]] [[]]
     SaveOutcome.success addedStore wf_emptyStore rfl rfl (by decide)⟩

/-- Claim C2, amended: `add_documents` performs NO length validation.
With non-empty texts and a well-formed (rectangular, non-empty) embedding
array, the call succeeds regardless of any relation between
`len(texts)`, `len(embeddings)` and `len(metadatas)`: it appends all
embeddings to the index and all texts/metadatas to the parallel arrays,
silently breaking the position alignment when the lengths differ, and no
validation error is ever raised for a length mismatch. -/
theorem add_no_length_validation :
    ∀ (st : VectorStore) (ts : List String) (es : List (List ℚ))
      (ms : List Metadata) (sv : SaveOutcome) (w : Nat) (rows : List (List ℚ)),
      toMatrix es = some (w, rows) → ts ≠ [] →
      ((st.index = none →
        ∃ st2, addDocuments st ts es ms sv = Except.ok st2 ∧
          st2.texts = ts ∧ st2.metadatas = ms ∧
          indexVecs st2 = es.map normalizeL2) ∧
       (∀ ix, st.index = some ix → w = ix.d →
        ∃ st2, addDocuments st ts es ms sv = Except.ok st2 ∧
          st2.texts = st.texts ++ ts ∧
          st2.metadatas = st.metadatas ++ ms ∧
          indexVecs st2 = indexVecs st ++ es.map normalizeL2)) := by
  intro st ts es ms sv w rows hm hts
  obtain ⟨hrows, hes⟩ := toMatrix_some hm
  subst hrows
  constructor
  · intro hix
    refine ⟨_, addDocuments_fresh st ts rows ms sv w rows hm hts hix,
      ?_, ?_, ?_⟩
    · rw [saveIndex_texts]
    · rw [saveIndex_metadatas]
    · simp [indexVecs, saveIndex_index]
  · intro ix hix hd
    refine ⟨_, addDocuments_append st ts rows ms sv w rows ix hm hts hix hd,
      ?_, ?_, ?_⟩
    · rw [saveIndex_texts]
    · rw [saveIndex_metadatas]
    · simp [indexVecs, saveIndex_index, hix]

/-- Witness for `add_no_length_validation` at the concrete mismatched
input (1 text, 2 embeddings, 1 metadata) on a fresh store. -/
theorem add_no_length_validation_witness :
    toMatrix [[(1 : ℚ)], [2]] = some (1, [[(1 : ℚ)], [2]]) ∧
    (["a"] : List String) ≠ [] ∧
    ((emptyStore.index = none →
      ∃ st2, addDocuments emptyStore ["a"] [[(1 : ℚ)], [2]] [[]]
          SaveOutcome.success =
          Except.ok st2 ∧
        st2.texts = ["a"] ∧ st2.metadatas = [[]] ∧
        indexVecs st2 = [[(1 : ℚ)], [2]].map normalizeL2) ∧
     (∀ ix, emptyStore.index = some ix → 1 = ix.d →
      ∃ st2, addDocuments emptyStore ["a"] [[(1 : ℚ)], [2]] [[]]
          SaveOutcome.success =
          Except.ok st2 ∧
        st2.texts = emptyStore.texts ++ ["a"] ∧
        st2.metadatas = emptyStore.metadatas ++ [[]] ∧
        indexVecs st2 =
          indexVecs emptyStore ++ [[(1 : ℚ)], [2]].map normalizeL2)) :=
  ⟨by decide, by decide,
   add_no_length_validation emptyStore ["a"] [[(1 : ℚ)], [2]] [[]]
     SaveOutcome.success 1 [[(1 : ℚ)], [2]] (by decide) (by decide)⟩

/-- Counterexample to claim C2 as stated: a fresh-store add with 1 text,
2 embeddings and 1 metadata raises no validation error; it returns
success with 1 text but 2 index vectors — a silently desynchronized
store. -/
theorem add_mismatch_cex :
    addDocuments emptyStore ["a"] [[(1 : ℚ)], [2]] [[]]
          SaveOutcome.success =
      Except.ok mismatchStore ∧
    mismatchStore.texts.length = 1 ∧ indexSize mismatchStore = 2 :=
  ⟨by decide, by decide, by decide⟩

/-- Claim C4, amended: a failing snapshot write during `add_documents` is
swallowed inside `_save_index` (caught and printed), NOT raised: whatever
on-disk state `f` the partial write leaves behind, the call returns an
error exactly when the successful-save run would (never because of the
save), and on success the in-memory state (dimension, index, texts,
metadatas) is identical to the successful-save outcome — the call is
reported as success while the program guarantees nothing about the
snapshot, which may be stale, mixed (the index artifact already rewritten
by `faiss.write_index`) or corrupt (the metadata artifact truncated by
`open('wb')` before `pickle.dump` raised). -/
theorem save_failure_swallowed :
    ∀ (st : VectorStore) (ts : List String) (es : List (List ℚ))
      (ms : List Metadata) (f : Files),
      (∀ e, addDocuments st ts es ms (SaveOutcome.failed f) =
          Except.error e ↔
        addDocuments st ts es ms SaveOutcome.success = Except.error e) ∧
      (∀ st2, addDocuments st ts es ms (SaveOutcome.failed f) =
          Except.ok st2 →
        ∃ st3, addDocuments st ts es ms SaveOutcome.success =
            Except.ok st3 ∧
          st3.dimension = st2.dimension ∧ st3.index = st2.index ∧
          st3.texts = st2.texts ∧ st3.metadatas = st2.metadatas) := by
  intro st ts es ms f
  rcases addDocuments_shape st ts es ms with
    ⟨hguard, h0⟩ | ⟨e0, h0⟩ | ⟨mid, hfiles, h0⟩
  · refine ⟨?_, ?_⟩
    · intro e
      rw [h0 (SaveOutcome.failed f), h0 SaveOutcome.success]
    · intro st2 h
      rw [h0 (SaveOutcome.failed f)] at h
      exact ⟨st, h0 SaveOutcome.success, by rw [Except.ok.inj h],
        by rw [Except.ok.inj h], by rw [Except.ok.inj h],
        by rw [Except.ok.inj h]⟩
  · refine ⟨?_, ?_⟩
    · intro e
      rw [h0 (SaveOutcome.failed f), h0 SaveOutcome.success]
    · intro st2 h
      rw [h0 (SaveOutcome.failed f)] at h
      exact absurd h (by simp)
  · refine ⟨?_, ?_⟩
    · intro e
      rw [h0 (SaveOutcome.failed f), h0 SaveOutcome.success]
      constructor
      · intro h
        exact absurd h (by simp)
      · intro h
        exact absurd h (by simp)
    · intro st2 h
      rw [h0 (SaveOutcome.failed f)] at h
      obtain rfl := Except.ok.inj h
      exact ⟨saveIndex mid SaveOutcome.success, h0 SaveOutcome.success,
        by rw [saveIndex_dimension, saveIndex_dimension],
        by rw [saveIndex_index, saveIndex_index],
        by rw [saveIndex_texts, saveIndex_texts],
        by rw [saveIndex_metadatas, saveIndex_metadatas]⟩

/-- Witness for `save_failure_swallowed`: a concrete add during which
`pickle.dump` fails — leaving the index artifact written and the metadata
artifact truncated — still returns success, with the same in-memory state
as the successful-save run. -/
theorem save_failure_swallowed_witness :
    addDocuments emptyStore ["a"] [[(1 : ℚ)]] [[]]
        (SaveOutcome.failed corruptFiles) = Except.ok failSaveStore ∧
    (∃ st3, addDocuments emptyStore ["a"] [[(1 : ℚ)]] [[]]
        SaveOutcome.success = Except.ok st3 ∧
      st3.dimension = failSaveStore.dimension ∧
      st3.index = failSaveStore.index ∧
      st3.texts = failSaveStore.texts ∧
      st3.metadatas = failSaveStore.metadatas) :=
  ⟨by decide,
   (save_failure_swallowed emptyStore ["a"] [[(1 : ℚ)]] [[]]
      corruptFiles).2 failSaveStore (by decide)⟩

/-- Counterexample to claim C4 as stated: a serialization failure inside
`_save_index` (here `pickle.dump` raising after `faiss.write_index`
succeeded and `open('wb')` truncated `metadata.pkl`) is NOT raised to the
caller — `add_documents` returns success — and the commit is neither
all-persisted nor none: the in-memory state and the index artifact hold
the new vector while the metadata artifact is corrupt. -/
theorem save_failure_cex :
    addDocuments emptyStore ["a"] [[(1 : ℚ)]] [[]]
        (SaveOutcome.failed corruptFiles) = Except.ok failSaveStore ∧
    failSaveStore.texts = ["a"] ∧
    failSaveStore.files.indexFile = Artifact.valid ⟨1, [[(1 : ℚ)]]⟩ ∧
    failSaveStore.files.metadataFile = Artifact.corrupt :=
  ⟨by decide, by decide, by decide, by decide⟩

/-- Claim C5, amended: the dimension is fixed by any `add_documents` call
made while the index is uninitialized — i.e. by the first call, but ALSO
re-fixed by the first call after a `clear` (which resets the index but
not the dimension), possibly to a different width.  While the index is
initialized, no successful add changes the dimension, a mismatched-width
add raises the wrapped dimension error, and `clear` keeps the dimension
value. -/
theorem dimension_stability :
    ∀ (st : VectorStore) (ix : IndexFlatIP) (ts : List String)
      (es : List (List ℚ)) (ms : List Metadata) (sv : SaveOutcome),
      st.index = some ix →
      ((∀ st2, addDocuments st ts es ms sv = Except.ok st2 →
          st2.dimension = st.dimension) ∧
       (∀ w rows, toMatrix es = some (w, rows) → ts ≠ [] → w ≠ ix.d →
          addDocuments st ts es ms sv = Except.error
            "Error adding documents to vector store: dimension mismatch") ∧
       (clearStore st).dimension = st.dimension) := by
  intro st ix ts es ms sv hix
  refine ⟨?_, ?_, rfl⟩
  · intro st2 h
    rcases addDocuments_ok st ts es ms sv st2 h with
      ⟨rfl, _⟩ | ⟨hts, w, rows, hm, rfl, hcase⟩
    · rfl
    · rcases hcase with ⟨hnone, _⟩ | ⟨ix2, hix2, hd, rfl⟩
      · rw [hix] at hnone
        exact Option.noConfusion hnone
      · rw [saveIndex_dimension]
  · intro w rows hm hts hd
    have hes : es ≠ [] := (toMatrix_some hm).2
    simp [addDocuments, hts, hes, hm, hix, hd]

/-- Witness for `dimension_stability` at a concrete two-entry store of
dimension 2 and a 3-wide add. -/
theorem dimension_stability_witness :
    twoVecStore.index = some ⟨2, [[(1 : ℚ), 0], [0, 1]]⟩ ∧
    ((∀ st2, addDocuments twoVecStore ["c"] [[(5 : ℚ), 5, 5]] [[]]
        SaveOutcome.success =
        Except.ok st2 → st2.dimension = twoVecStore.dimension) ∧
     (∀ w rows, toMatrix [[(5 : ℚ), 5, 5]] = some (w, rows) →
        (["c"] : List String) ≠ [] →
        w ≠ (⟨2, [[(1 : ℚ), 0], [0, 1]]⟩ : IndexFlatIP).d →
        addDocuments twoVecStore ["c"] [[(5 : ℚ), 5, 5]] [[]]
            SaveOutcome.success =
          Except.error
            "Error adding documents to vector store: dimension mismatch") ∧
     (clearStore twoVecStore).dimension = twoVecStore.dimension) :=
  ⟨rfl, dimension_stability twoVecStore ⟨2, [[(1 : ℚ), 0], [0, 1]]⟩ ["c"]
    [[(5 : ℚ), 5, 5]] [[]] SaveOutcome.success rfl⟩

/-- Counterexample to claim C5 as stated: the dimension is 2 after the
first add; after `clear` followed by a 3-wide add the SAME store instance
has dimension 3 — the dimension is not fixed for the lifetime of the
instance, and the clear-then-add sequence is accepted, not a fatal
error. -/
theorem dimension_stability_cex :
    (runOps emptyStore
      [Op.add ["a"] [[(1 : ℚ), 0]] [[]] SaveOutcome.success]).dimension
      = 2 ∧
    (runOps emptyStore
      [Op.add ["a"] [[(1 : ℚ), 0]] [[]] SaveOutcome.success, Op.clear,
       Op.add ["b"] [[(1 : ℚ), 0, 0]] [[]]
         SaveOutcome.success]).dimension = 3 :=
  ⟨by decide, by decide⟩

/-- Claim C10: constructing a store when the metadata artifact exists
(with non-empty texts) but the index artifact is absent yields an
uninitialized index with the loaded non-empty parallel arrays;
`get_stats` then reports the loaded document count with
`vector_dimensions = 0` and `index_size = 0`; and the first subsequent
successful `add_documents` resets `texts` and `metadatas` — discarding
the loaded entries — before appending the new ones. -/
theorem load_without_index_artifact :
    ∀ (files : Files) (ts : List String) (ms : List Metadata) (d : Nat),
      files.metadataFile = Artifact.valid (ts, ms, d) →
      files.indexFile = Artifact.absent →
      ts ≠ [] →
      (loadIndex 1536 files).index = none ∧
      (loadIndex 1536 files).texts = ts ∧
      (loadIndex 1536 files).metadatas = ms ∧
      getStats (loadIndex 1536 files) =
        { total_documents := ts.length, vector_dimensions := 0,
          index_size := 0 } ∧
      (∀ (nts : List String) (nes : List (List ℚ)) (nms : List Metadata)
          (sv : SaveOutcome) (w : Nat) (rows : List (List ℚ)),
        toMatrix nes = some (w, rows) → nts ≠ [] →
        ∃ st2, addDocuments (loadIndex 1536 files) nts nes nms sv =
            Except.ok st2 ∧ st2.texts = nts ∧ st2.metadatas = nms) := by
  intro files ts ms d hmeta hidx hts
  have hload : loadIndex 1536 files =
      { dimension := d, index := none, texts := ts, metadatas := ms,
        files := files } := by
    simp [loadIndex, hmeta, hidx]
  refine ⟨by rw [hload], by rw [hload], by rw [hload], ?_, ?_⟩
  · rw [hload]
    simp [getStats, indexSize]
  · intro nts nes nms sv w rows hm hnts
    refine ⟨_, addDocuments_fresh (loadIndex 1536 files) nts nes nms sv w
      rows hm hnts (by rw [hload]), ?_, ?_⟩
    · rw [saveIndex_texts]
    · rw [saveIndex_metadatas]

/-- Witness for `load_without_index_artifact` at a concrete file pair:
metadata artifact with one text and dimension 7, no index artifact. -/
theorem load_without_index_artifact_witness :
    loadedFiles.metadataFile = Artifact.valid (["a"], [[]], 7) ∧
    loadedFiles.indexFile = Artifact.absent ∧
    (["a"] : List String) ≠ [] ∧
    ((loadIndex 1536 loadedFiles).index = none ∧
     (loadIndex 1536 loadedFiles).texts = ["a"] ∧
     (loadIndex 1536 loadedFiles).metadatas = [[]] ∧
     getStats (loadIndex 1536 loadedFiles) =
       { total_documents := (["a"] : List String).length,
         vector_dimensions := 0, index_size := 0 } ∧
     (∀ (nts : List String) (nes : List (List ℚ)) (nms : List Metadata)
         (sv : SaveOutcome) (w : Nat) (rows : List (List ℚ)),
       toMatrix nes = some (w, rows) → nts ≠ [] →
       ∃ st2, addDocuments (loadIndex 1536 loadedFiles) nts nes nms sv =
           Except.ok st2 ∧ st2.texts = nts ∧ st2.metadatas = nms)) :=
  ⟨rfl, rfl, by decide,
   load_without_index_artifact loadedFiles ["a"] [[]] 7 rfl rfl (by decide)⟩

/-! ## Similarity search lemmas and claim C3 -/

theorem faissSearch_mem_lt (ix : IndexFlatIP) (q : List ℚ) (k : Nat) :
    ∀ p ∈ faissSearch ix q k, p.2 < ix.vecs.length := by
  intro p hp
  unfold faissSearch at hp
  have h1 := List.mem_of_mem_take hp
  rw [List.mem_insertionSort] at h1
  obtain ⟨i, hi, rfl⟩ := List.mem_map.mp h1
  simpa using List.mem_range.mp hi

theorem faissSearch_length (ix : IndexFlatIP) (q : List ℚ) (k : Nat) :
    (faissSearch ix q k).length = min k ix.vecs.length := by
  unfold faissSearch
  rw [List.length_take, List.length_insertionSort, List.length_map,
    List.length_range]

theorem faissSearch_sorted (ix : IndexFlatIP) (q : List ℚ) (k : Nat) :
    (faissSearch ix q k).Pairwise scoreGE := by
  unfold faissSearch
  exact List.Pairwise.sublist (List.take_sublist _ _)
    (List.sorted_insertionSort scoreGE _)

/-- Assembling ranked results from `(score, idx)` pairs whose indices all
pass the bound check: nothing is filtered out, ranks are consecutive from
`i0 + 1`, and scores are carried through unchanged. -/
theorem filterMap_mkResult (T : List String) (M : List Metadata) :
    ∀ (l : List (ℚ × Nat)) (i0 : Nat), (∀ p ∈ l, p.2 < T.length) →
      ((idxFrom i0 l).filterMap (mkResult T M)).length = l.length ∧
      ((idxFrom i0 l).filterMap (mkResult T M)).map SearchResult.rank =
        List.range' (i0 + 1) l.length ∧
      ((idxFrom i0 l).filterMap (mkResult T M)).map SearchResult.score =
        l.map Prod.fst := by
  intro l
  induction l with
  | nil =>
    intro i0 h
    exact ⟨rfl, by simp [idxFrom], rfl⟩
  | cons p tl ih =>
    intro i0 h
    have hp : p.2 < T.length := h p (List.mem_cons_self p tl)
    have htl : ∀ x ∈ tl, x.2 < T.length :=
      fun x hx => h x (List.mem_cons_of_mem p hx)
    obtain ⟨h1, h2, h3⟩ := ih (i0 + 1) htl
    have hmk : mkResult T M (i0, p) = some
        { text := T.getD p.2 "", metadata := M.getD p.2 [],
          score := p.1, rank := i0 + 1 } := by
      simp [mkResult, hp]
    refine ⟨?_, ?_, ?_⟩
    · simp only [idxFrom, List.filterMap_cons, hmk, List.length_cons, h1]
    · simp only [idxFrom, List.filterMap_cons, hmk, List.map_cons, h2,
        List.length_cons, List.range'_succ]
    · simp only [idxFrom, List.filterMap_cons, hmk, List.map_cons, h3]

/-- Claim C3: on a well-formed store, `similarity_search` with a query of
the store's dimension returns exactly `min(k, n)` results (n = number of
stored entries), with non-increasing scores and ranks `1, 2, …,
min(k, n)` in order; on an empty or uninitialized store it returns the
empty list, not an error. -/
theorem similarity_search_spec :
    ∀ (st : VectorStore) (q : List ℚ) (k : Nat), WF st →
      ((st.index = none ∨ st.texts = []) →
        similaritySearch st q k = Except.ok []) ∧
      (∀ ix, st.index = some ix → q.length = ix.d →
        ∃ rs, similaritySearch st q k = Except.ok rs ∧
          rs.length = min k st.texts.length ∧
          rs.map SearchResult.rank =
            List.range' 1 (min k st.texts.length) ∧
          (rs.map SearchResult.score).Pairwise (fun a b : ℚ => b ≤ a)) := by
  intro st q k hwf
  constructor
  · intro hcase
    cases hix : st.index with
    | none => simp [similaritySearch, hix]
    | some ix =>
      have htexts : st.texts = [] := by
        rcases hcase with h | h
        · rw [hix] at h
          exact Option.noConfusion h
        · exact h
      simp [similaritySearch, hix, htexts]
  · intro ix hix hq
    by_cases hT : st.texts.length = 0
    · refine ⟨[], ?_, ?_, ?_, ?_⟩
      · simp only [similaritySearch, hix]
        rw [if_pos hT]
      · simp [hT]
      · simp [hT]
      · simp
    · have hlen_tv : st.texts.length = ix.vecs.length := by
        obtain ⟨h1, h2, h3⟩ := hwf
        rw [h2]
        simp [indexSize, hix]
      have hall : ∀ p ∈ faissSearch ix q (min k st.texts.length),
          p.2 < st.texts.length := by
        intro p hp
        rw [hlen_tv]
        exact faissSearch_mem_lt ix q _ p hp
      obtain ⟨hL, hR, hS⟩ := filterMap_mkResult st.texts st.metadatas
        (faissSearch ix q (min k st.texts.length)) 0 hall
      have hplen : (faissSearch ix q (min k st.texts.length)).length =
          min k st.texts.length := by
        rw [faissSearch_length, ← hlen_tv, min_assoc, min_self]
      have hgoal : similaritySearch st q k = Except.ok
          ((idxFrom 0 (faissSearch ix q
            (min k st.texts.length))).filterMap
            (mkResult st.texts st.metadatas)) := by
        simp only [similaritySearch, hix]
        rw [if_neg hT, if_neg (fun hc => hc hq)]
      refine ⟨_, hgoal, ?_, ?_, ?_⟩
      · rw [hL, hplen]
      · rw [hR, hplen]
      · rw [hS, List.pairwise_map]
        exact faissSearch_sorted ix q (min k st.texts.length)

/-- Witness for `similarity_search_spec`: the concrete two-entry store of
dimension 2 with the query `[1, 0]` and `k = 5`, plus the empty-store case
on a fresh store. -/
theorem similarity_search_spec_witness :
    WF twoVecStore ∧
    (∃ rs, similaritySearch twoVecStore [(1 : ℚ), 0] 5 = Except.ok rs ∧
      rs.length = min 5 twoVecStore.texts.length ∧
      rs.map SearchResult.rank =
        List.range' 1 (min 5 twoVecStore.texts.length) ∧
      (rs.map SearchResult.score).Pairwise (fun a b : ℚ => b ≤ a)) ∧
    similaritySearch emptyStore [(1 : ℚ)] 5 = Except.ok [] :=
  ⟨by decide,
   (similarity_search_spec twoVecStore [(1 : ℚ), 0] 5 (by decide)).2
     ⟨2, [[(1 : ℚ), 0], [0, 1]]⟩ rfl rfl,
   (similarity_search_spec emptyStore [(1 : ℚ)] 5 (by decide)).1
     (Or.inl rfl)⟩

end RagCore
